import Mathlib

/-!
Verification development for the sywu/comp signal-slot library.

The model is a shallow embedding of the emission protocol of
`SignalConcept<LockType, ReturnType, Arguments...>::operator()` from
`src/include/sywu/concept/signal_concept_impl.hpp`, of the connection and
tracker machinery from `src/include/sywu/connection.hpp` and
`src/include/comp/concept/core/signal.hpp`, and of the vector helpers from
`src/include/sywu/wrap/vector.hpp`.

Slots are identified by natural numbers (object identity of the
`shared_ptr<Slot>`).  The signal state carries the slot sequence
(`m_slots`), a total store from identities to slot objects, the blocked
flag, the emission guard, and a ghost log that records the result of every
re-entrant emission attempt (the inner call's returned count and the number
of slots it invoked).
-/

/-- The two exception kinds the emission loop catches:
`bad_slot` (stale method target, thrown by `MethodSlot::activateOverride`)
and `bad_weak_ptr` (forwarding slot's receiver gone). -/
inductive Err where
  | badSlot : Err
  | badWeakPtr : Err
deriving DecidableEq

/-- Effects a running slot's user-supplied callable may perform on the
signal during its invocation: connect a fresh slot, disconnect a slot
through the signal (`Signal::disconnect(Connection)`), toggle a slot's
enabled flag, destroy the object a method slot weakly tracks, or attempt a
re-entrant emission of the same signal. -/
inductive SAction where
  | connectNew (j : Nat) : SAction
  | disconn (j : Nat) : SAction
  | setEnabledAct (j : Nat) (b : Bool) : SAction
  | killTarget (j : Nat) : SAction
  | reemit : SAction
deriving DecidableEq

/-- The variant of a slot: a `FunctionSlot` wrapping a callable (whose
behaviour is the list of effects it performs when invoked), or a
`MethodSlot` whose weakly tracked target object is alive or expired.
(`SignalSlot` forwarding failures surface as `bad_weak_ptr`, caught by the
same handlers as `bad_slot`; the loop model treats every raised `Err`
uniformly, so the method variant exercises both catch clauses.) -/
inductive SlotKind where
  | func (acts : List SAction) : SlotKind
  | method (targetAlive : Bool) : SlotKind
deriving DecidableEq

/-- One slot object: the connected state, the enabled flag
(`Slot::m_isEnabled`, `src/include/sywu/connection.hpp` lines 33-42), an
abstract summary of whether all attached trackers report valid, and the
variant. `targetAlive` and `trackersValid` are independent fields: the
per-slot lock is released during the user call, so the tracked object can
expire between the `isConnected` re-check and the actual invocation. -/
structure SlotM where
  connected : Bool
  enabled : Bool
  trackersValid : Bool
  kind : SlotKind
deriving DecidableEq

/-- Modelled from the spec: `Slot::isConnected` (declared at
`src/include/comp/concept/core/signal.hpp` line 39 and called by
`signal_concept_impl.hpp`; its body is not under `src/`).  Per the spec,
it returns false if the slot was explicitly disconnected or any attached
tracker reports invalidity. -/
def isConnectedM (s : SlotM) : Bool :=
  s.connected && s.trackersValid

/-- The state of one signal:
`blocked` models `isBlocked()`, `emitGuard` models `m_emitGuard.isLocked()`
(modelled from the spec: the guard lock type is not under `src/`; the spec
describes it as a signal-scoped non-reentrant lock whose second holder
returns zero), `slotIds` is `m_slots` (identities, registration order),
`store` maps identities to slot objects, and `reemitLog` is a ghost
observer recording each re-entrant emission attempt as the pair
(returned count, number of slots the inner attempt invoked). -/
structure SigState (A : Type) where
  blocked : Bool
  emitGuard : Bool
  slotIds : List Nat
  store : Nat → SlotM
  reemitLog : List (Nat × Nat)

/-- Update the slot store at one identity. -/
def storeUpdate (f : Nat → SlotM) (i : Nat) (g : SlotM → SlotM) : Nat → SlotM :=
  fun j => if j = i then g (f j) else f j

/-- The effect of `Slot::disconnect()` on the slot object
(`src/include/sywu/connection.hpp` lines 63-73): the trackers are detached
and cleared (so the tracker pass is vacuous afterwards), and the slot is
marked disconnected (modelled from the spec: the `disconnectOverride`
implementations are not under `src/`; per the spec the slot transitions to
disconnected and is never reactivated). -/
def slotObjDisconnect (s : SlotM) : SlotM :=
  { s with connected := false, trackersValid := true }

/-- `SignalConcept::disconnect(Connection)` with a connection resolving to
slot `i` (`src/include/sywu/concept/signal_concept_impl.hpp` lines
232-239): the slot object is disconnected, then `erase(m_slots, slot)`
(`src/include/sywu/wrap/vector.hpp` lines 34-39, the remove/erase idiom)
removes every occurrence of that identity from the sequence. -/
def sigDisconnect {A : Type} (st : SigState A) (i : Nat) : SigState A :=
  { st with
    store := storeUpdate st.store i slotObjDisconnect,
    slotIds := st.slotIds.filter (fun j => j != i) }

/-- `SignalConcept::disconnect(Connection)` in full: `connection.get()`
resolves the weak slot reference (`none` models a connection that does not
resolve to a live slot; `Connection::disconnect` is then a no-op per the
core generation at `src/include/comp/concept/core/signal.hpp` lines
98-107, and `erase` of a null pointer removes nothing from a sequence that
holds no nulls). -/
def sigDisconnectConn {A : Type} (st : SigState A) (c : Option Nat) : SigState A :=
  match c with
  | none => st
  | some i => sigDisconnect st i

/-- A fresh function slot as built by `connect(callable)` and
`addSlot` (`signal_concept_impl.hpp` lines 176-183, 203-216). -/
def freshSlot : SlotM :=
  { connected := true, enabled := true, trackersValid := true, kind := SlotKind.func [] }

/-- Run the effects of a user callable.  `inner` is the semantics of a
re-entrant invocation of the same signal (the recursive knot is tied by
fuel in `emitFuel`). -/
def runActions {A : Type} (inner : SigState A → A → SigState A × Nat × List (Nat × A))
    (args : A) : List SAction → SigState A → SigState A
  | [], st => st
  | a :: rest, st =>
    let st' : SigState A :=
      match a with
      | SAction.connectNew j =>
        { st with
          store := storeUpdate st.store j (fun _ => freshSlot),
          slotIds := st.slotIds ++ [j] }
      | SAction.disconn j => sigDisconnect st j
      | SAction.setEnabledAct j b =>
        { st with store := storeUpdate st.store j (fun s => { s with enabled := b }) }
      | SAction.killTarget j =>
        { st with store := storeUpdate st.store j (fun s =>
            { s with
              kind := match s.kind with
                      | SlotKind.method _ => SlotKind.method false
                      | k => k,
              trackersValid := false }) }
      | SAction.reemit =>
        let r := inner st args
        { r.1 with reemitLog := r.1.reemitLog ++ [(r.2.1, r.2.2.length)] }
    runActions inner args rest st'

/-- The outcome of activating one slot. -/
inductive ActResult (A : Type) where
  | skipped : ActResult A
  | invoked (st : SigState A) : ActResult A
  | raised (e : Err) : ActResult A

/-- `SlotImpl::activate` (declared at `src/include/sywu/connection.hpp`
line 106; its body, in `sywu/concept/concept_impl.hpp`, is not under
`src/`).  Modelled from the spec: the enabled flag gates emission without
destroying the slot, and the emission counts only slots actually invoked,
so activating a disabled slot performs no invocation and is not counted.
An enabled function slot runs its callable
(`FunctionSlot::activateOverride`, `signal_concept_impl.hpp` lines 23-26);
an enabled method slot whose weak target expired raises `bad_slot` instead
of invoking (`MethodSlot::activateOverride`, lines 43-52). -/
def activateSlot {A : Type} (inner : SigState A → A → SigState A × Nat × List (Nat × A))
    (args : A) (s : SlotM) (st : SigState A) : ActResult A :=
  if s.enabled then
    match s.kind with
    | SlotKind.func acts => ActResult.invoked (runActions inner args acts st)
    | SlotKind.method alive =>
      if alive then ActResult.invoked st else ActResult.raised Err.badSlot
  else ActResult.skipped

/-- The per-slot loop of `SignalConcept::operator()`
(`signal_concept_impl.hpp` lines 143-170): for each snapshot entry, the
slot's connected state is re-checked (a concurrently disconnected slot is
skipped), the slot is activated with the lock released, a normal return
increments the invocation counter and is recorded in the trace, and a
raised `bad_weak_ptr`/`bad_slot` is caught, the slot disconnected through
the signal, and the loop continues with the next snapshot entry. -/
def emitLoop {A : Type} (inner : SigState A → A → SigState A × Nat × List (Nat × A))
    (args : A) : List Nat → SigState A → SigState A × Nat × List (Nat × A)
  | [], st => (st, 0, [])
  | i :: rest, st =>
    if isConnectedM (st.store i) then
      match activateSlot inner args (st.store i) st with
      | ActResult.skipped => emitLoop inner args rest st
      | ActResult.invoked st' =>
        let r := emitLoop inner args rest st'
        (r.1, r.2.1 + 1, (i, args) :: r.2.2)
      | ActResult.raised _ => emitLoop inner args rest (sigDisconnect st i)
    else
      emitLoop inner args rest st

/-- `SignalConcept::operator()` (`signal_concept_impl.hpp` lines 124-173),
bounded by fuel for re-entrant attempts: if the signal is blocked or the
emission guard is held, return zero immediately; otherwise take the guard,
prune the slot sequence of not-connected slots under the signal lock, copy
the remainder as the snapshot, run the loop, and release the guard.
The result is the final state, the invocation count, and the trace of
invocations (slot identity, arguments), in invocation order. -/
def emitFuel {A : Type} : Nat → SigState A → A → SigState A × Nat × List (Nat × A)
  | 0, st, _ => (st, 0, [])
  | fuel + 1, st, args =>
    if st.blocked || st.emitGuard then (st, 0, [])
    else
      let st1 : SigState A := { st with emitGuard := true }
      let pruned := st1.slotIds.filter (fun i => isConnectedM (st1.store i))
      let st2 : SigState A := { st1 with slotIds := pruned }
      let r := emitLoop (emitFuel fuel) args pruned st2
      ({ r.1 with emitGuard := false }, r.2.1, r.2.2)

/-- Invoking the signal (`operator()`) with at least one unit of fuel for
nested attempts. -/
def emitSignal {A : Type} (fuel : Nat) (st : SigState A) (args : A) :
    SigState A × Nat × List (Nat × A) :=
  emitFuel (fuel + 1) st args

/-- A slot whose invocation has no effect on the signal: a function slot
with an effect-free callable, or a method slot with a live target. -/
def PureSlot (s : SlotM) : Prop :=
  s.kind = SlotKind.func [] ∨ s.kind = SlotKind.method true

instance (s : SlotM) : Decidable (PureSlot s) := by
  unfold PureSlot
  infer_instance

/-- The destructor loop of `SignalConcept::~SignalConcept`
(`signal_concept_impl.hpp` lines 111-122): under the signal's lock, while
the sequence is nonempty, take the last slot, pop it, and disconnect it.
Popping from the back visits the sequence in reverse registration order;
this loop receives the reversed sequence.  A slot's `disconnect` does not
touch `m_slots`, so plain structural recursion is faithful. -/
def signalDtorLoop {A : Type} : List Nat → SigState A → SigState A
  | [], st => st
  | i :: rest, st =>
    signalDtorLoop rest { st with store := storeUpdate st.store i slotObjDisconnect }

/-- `SignalConcept::~SignalConcept`: pops and disconnects every remaining
slot, leaving the sequence empty. -/
def signalDtor {A : Type} (st : SigState A) : SigState A :=
  { signalDtorLoop st.slotIds.reverse st with slotIds := [] }

/-- `Connection::operator bool` (`src/include/sywu/connection.hpp` lines
163-171): false when the sender pointer is null or the weak slot reference
no longer locks; otherwise the slot's validity.  After `disconnect` the
slot's trackers are cleared, so validity reduces to `isValidOverride`,
modelled from the spec (its implementations are not under `src/`): a
connection is valid while the underlying slot still exists and is
connected.  `senderSet` models a non-null `m_sender`, `slotAlive` models a
lockable weak slot reference. -/
def connBoolM {A : Type} (senderSet slotAlive : Bool) (st : SigState A) (i : Nat) : Bool :=
  senderSet && slotAlive && isConnectedM (st.store i)

/-- A `Connection`'s weak slot reference: `none` when the reference does
not lock (slot destroyed or reference reset), `some i` when it resolves to
the slot with identity `i`. -/
structure ConnM where
  slotRef : Option Nat
deriving DecidableEq

/-- The core-generation `Signal::Connection::disconnect`
(`src/include/comp/concept/core/signal.hpp` lines 99-107): lock the weak
slot reference; if it does not lock, return (no-op); otherwise call the
slot's `disconnect()`.  The weak reference itself is left in place. -/
def coreConnDisconnect {A : Type} (st : SigState A) (c : ConnM) : SigState A × ConnM :=
  match c.slotRef with
  | none => (st, c)
  | some i => ({ st with store := storeUpdate st.store i slotObjDisconnect }, c)

/-- The sywu-generation `Connection::disconnect`
(`src/include/sywu/connection.hpp` lines 135-142): lock the weak slot
reference, `SYWU_ASSERT(slot)` — a fatal assertion when the reference does
not lock, modelled as `none` — then call the slot's `disconnect()`, reset
the weak slot reference and null the sender. -/
def sywuConnDisconnect {A : Type} (st : SigState A) (c : ConnM) : Option (SigState A × ConnM) :=
  match c.slotRef with
  | none => none
  | some i =>
    some ({ st with store := storeUpdate st.store i slotObjDisconnect },
          { slotRef := none })

/-!
Model of the earlier-generation validity check `Slot::isValid`
(`src/include/sywu/connection.hpp` lines 46-60) over a list of trackers.
-/

/-- A tracker capability bound to an external lifetime source: whether the
source is still valid, and the tracker's net retain count (a ghost
observer of the retains minus releases performed on the source). -/
structure TrackerT where
  valid : Bool
  cnt : Int
deriving DecidableEq

/-- Modelled from the spec: the tracker `retain` capability (the concrete
tracker bindings built by `Slot::bind` are not under `src/`).  Retaining a
valid source takes one reference and reports success; retaining an expired
source takes nothing and reports failure (a weak reference that no longer
locks). -/
def retainT (t : TrackerT) : TrackerT × Bool :=
  if t.valid then ({ t with cnt := t.cnt + 1 }, true) else (t, false)

/-- Modelled from the spec: the tracker `release` capability drops one
reference. -/
def releaseT (t : TrackerT) : TrackerT :=
  { t with cnt := t.cnt - 1 }

/-- The `find_if` pass of `Slot::isValid`: retain trackers one by one,
stopping at the first tracker whose retain reports failure.  Returns the
updated trackers and the index of the failing tracker, if any; trackers
after the failing one are not visited. -/
def retainPass : List TrackerT → List TrackerT × Option Nat
  | [] => ([], none)
  | t :: ts =>
    let r := retainT t
    if r.2 then
      let rest := retainPass ts
      (r.1 :: rest.1, rest.2.map (· + 1))
    else
      (r.1 :: ts, some 0)

/-- Release the first `n` trackers of a list (the `for_each` from the
begin iterator to the failing position). -/
def releaseFirstN : Nat → List TrackerT → List TrackerT
  | _, [] => []
  | 0, ts => ts
  | n + 1, t :: ts => releaseT t :: releaseFirstN n ts

/-- `Slot::isValid` (`src/include/sywu/connection.hpp` lines 46-60): walk
the trackers retaining each; on the first failure release exactly the
trackers retained so far and report invalid; on success release every
tracker and report the slot-specific validity (`isValidOverride`,
abstracted as `ov`).  Returns the trackers after the check and the
verdict. -/
def slotIsValidChk (trs : List TrackerT) (ov : Bool) : List TrackerT × Bool :=
  match (retainPass trs).2 with
  | some i => (releaseFirstN i (retainPass trs).1, false)
  | none => ((retainPass trs).1.map releaseT, ov)

/-- The index of the first tracker reporting invalid, if any. -/
def firstFailIdx : List TrackerT → Option Nat
  | [] => none
  | t :: ts => if t.valid then (firstFailIdx ts).map (· + 1) else some 0

/-!
Model of the `Trackable` machinery (`src/include/sywu/connection.hpp`
lines 186-253) together with `Slot::disconnect` (lines 63-73): a world of
slot objects, each carrying its attached trackable identities, and of
trackables, each recording its attached slot identities.
-/

/-- A slot as seen by the trackable machinery: connected state, enabled
flag, and the identities of the trackables its trackers are bound to. -/
structure TSlot where
  connected : Bool
  enabled : Bool
  trackers : List Nat
deriving DecidableEq

/-- Slots and trackables: `slots` maps a slot identity to its object,
`tslots` maps a trackable identity to its recorded slot list
(`Trackable::m_slots`). -/
structure TrkWorld where
  slots : Nat → TSlot
  tslots : Nat → List Nat

/-- Detaching slot `sid` from each trackable in a tracker list, in order:
each detach notifies the trackable, which runs
`Trackable::detach` (`src/include/sywu/connection.hpp` lines 229-232),
an `erase_first` (`src/include/sywu/wrap/vector.hpp` lines 42-50) of the
slot from the trackable's recorded list. -/
def detachAll (sid : Nat) : List Nat → (Nat → List Nat) → (Nat → List Nat)
  | [], ts => ts
  | t :: rest, ts =>
    detachAll sid rest (fun u => if u = t then (ts u).erase sid else ts u)

/-- `Slot::disconnect` (`src/include/sywu/connection.hpp` lines 63-73) on
slot `sid`: under the slot's lock, detach every tracker (notifying the
attached trackables), clear the tracker list, and run the variant-specific
`disconnectOverride` (modelled from the spec: its implementations are not
under `src/`; per the spec it marks the slot disconnected). -/
def slotDisconnectW (sid : Nat) (w : TrkWorld) : TrkWorld :=
  { slots := fun j =>
      if j = sid then
        { connected := false, enabled := (w.slots sid).enabled, trackers := [] }
      else w.slots j,
    tslots := detachAll sid (w.slots sid).trackers w.tslots }

/-- The operations the model exposes on a slot after construction. -/
inductive SlotOp where
  | setEnabledOp (b : Bool) : SlotOp
  | disconnectOp : SlotOp
  | addTrackerOp (t : Nat) : SlotOp
deriving DecidableEq

/-- Apply one slot operation to the world.  `setEnabled` stores the flag
(`src/include/sywu/connection.hpp` lines 39-42); `disconnect` is
`slotDisconnectW`; `addTracker` (modelled from the spec: its body is not
under `src/`; per the spec it attaches one more lifetime observer and is
legal only while connected) appends the tracker and records the slot on
the trackable (`Trackable::attach`, lines 223-226). -/
def applySlotOp (sid : Nat) (op : SlotOp) (w : TrkWorld) : TrkWorld :=
  match op with
  | SlotOp.setEnabledOp b =>
    { w with slots := fun j =>
        if j = sid then { w.slots sid with enabled := b } else w.slots j }
  | SlotOp.disconnectOp => slotDisconnectW sid w
  | SlotOp.addTrackerOp t =>
    if (w.slots sid).connected then
      { slots := fun j =>
          if j = sid then
            { w.slots sid with trackers := (w.slots sid).trackers ++ [t] }
          else w.slots j,
        tslots := fun u => if u = t then w.tslots u ++ [sid] else w.tslots u }
    else w

/-- `Trackable::disconnectSlots` (`src/include/sywu/connection.hpp` lines
240-248) on trackable `t`, bounded by fuel: while the recorded slot list
is nonempty, take the last slot, pop it, and disconnect it.  The
disconnect re-enters the trackable through `detach`, which is why the list
is re-read each iteration. -/
def disconnectSlotsFuel : Nat → Nat → TrkWorld → TrkWorld
  | 0, _, w => w
  | fuel + 1, t, w =>
    match (w.tslots t).getLast? with
    | none => w
    | some s =>
      let w1 : TrkWorld :=
        { w with tslots := fun u => if u = t then (w.tslots t).dropLast else w.tslots u }
      disconnectSlotsFuel fuel t (slotDisconnectW s w1)

/-- `Trackable::~Trackable` (`src/include/sywu/connection.hpp` lines
202-205): the destructor body runs `disconnectSlots` to completion —
the recorded list starts with some length and strictly shrinks every
iteration, so that much fuel suffices — before the object's storage is
reclaimed. -/
def trackableDtor (t : Nat) (w : TrkWorld) : TrkWorld :=
  disconnectSlotsFuel (w.tslots t).length t w

/-- The ghost log of `st'` extends the ghost log of `st` by re-entrant
attempts that all returned count zero and invoked zero slots. -/
def LogExt {A : Type} (st st' : SigState A) : Prop :=
  ∃ k, st'.reemitLog = st.reemitLog ++ List.replicate k (0, 0)

/-- A concrete signal state whose emission guard is held. -/
def wStGuard : SigState (Nat × Nat) :=
  { blocked := false, emitGuard := true, slotIds := [1],
    store := fun _ => freshSlot, reemitLog := [] }

/-- A concrete signal state with one slot whose callable re-emits the
signal. -/
def wStReemit : SigState (Nat × Nat) :=
  { blocked := false, emitGuard := false, slotIds := [1],
    store := fun i =>
      if i = 1 then { freshSlot with kind := SlotKind.func [SAction.reemit] }
      else freshSlot,
    reemitLog := [] }

/-- A concrete `Sum(int,int)` signal with two effect-free slots. -/
def wStSum : SigState (Nat × Nat) :=
  { blocked := false, emitGuard := false, slotIds := [1, 2],
    store := fun _ => freshSlot, reemitLog := [] }

/-- A concrete signal whose first slot, while running, connects a new
slot 3 and disconnects slot 2. -/
def wStMut : SigState (Nat × Nat) :=
  { blocked := false, emitGuard := false, slotIds := [1, 2],
    store := fun i =>
      if i = 1 then
        { freshSlot with kind := SlotKind.func [SAction.connectNew 3, SAction.disconn 2] }
      else freshSlot,
    reemitLog := [] }

/-- A concrete signal state in which slot 2 is disconnected. -/
def wStSkip : SigState (Nat × Nat) :=
  { blocked := false, emitGuard := true, slotIds := [1, 2],
    store := fun i =>
      if i = 2 then { freshSlot with connected := false } else freshSlot,
    reemitLog := [] }

/-- A no-effect inner-emission semantics for witnesses about the bare
loop. -/
def innerNop : SigState (Nat × Nat) → Nat × Nat → SigState (Nat × Nat) × Nat × List (Nat × (Nat × Nat)) :=
  fun st _ => (st, 0, [])

/-- A concrete signal whose first slot is a method slot with an expired
target (trackers still reporting valid, the re-check window) and whose
second slot is an ordinary function slot. -/
def wStStale : SigState (Nat × Nat) :=
  { blocked := false, emitGuard := false, slotIds := [1, 2],
    store := fun i =>
      if i = 1 then { freshSlot with kind := SlotKind.method false } else freshSlot,
    reemitLog := [] }

/-- A concrete signal holding two connected slots, for the destructor
scenario. -/
def wStDtor : SigState (Nat × Nat) :=
  { blocked := false, emitGuard := false, slotIds := [1, 2],
    store := fun _ => freshSlot, reemitLog := [] }

/-- A concrete signal whose slot sequence holds slot 1 twice (the same
slot object connected twice), besides slots 2 and 3. -/
def wStDup : SigState (Nat × Nat) :=
  { blocked := false, emitGuard := false, slotIds := [1, 2, 1, 3],
    store := fun _ => freshSlot, reemitLog := [] }

/-- A concrete world for the trackable scenarios: trackable 1 has slots
1 and 2 attached, and each of those slots carries trackable 1 as its one
tracker. -/
def wTrk : TrkWorld :=
  { slots := fun i =>
      if i = 1 || i = 2 then { connected := true, enabled := true, trackers := [1] }
      else { connected := true, enabled := true, trackers := [] },
    tslots := fun t => if t = 1 then [1, 2] else [] }

/-! ### Theorems -/

theorem list_filter_comp {α : Type} (p q : α → Bool) :
    ∀ l : List α, (l.filter p).filter q = l.filter (fun a => p a && q a) := by
  intro l
  induction l with
  | nil => rfl
  | cons a rest ih =>
    by_cases hp : p a
    · by_cases hq : q a
      · simp [List.filter, hp, hq, ih]
      · simp [List.filter, hp, hq, ih]
    · simp [List.filter, hp, ih]

theorem emitFuel_held (A : Type) (fuel : Nat) (st : SigState A) (args : A)
    (h : (st.blocked || st.emitGuard) = true) : emitFuel fuel st args = (st, 0, []) := by
  cases fuel with
  | zero => rfl
  | succ n => simp [emitFuel, h]

theorem logExt_refl {A : Type} (st : SigState A) : LogExt st st :=
  ⟨0, by simp⟩

theorem logExt_trans {A : Type} {st1 st2 st3 : SigState A}
    (h1 : LogExt st1 st2) (h2 : LogExt st2 st3) : LogExt st1 st3 := by
  obtain ⟨k1, hk1⟩ := h1
  obtain ⟨k2, hk2⟩ := h2
  exact ⟨k1 + k2, by rw [hk2, hk1, List.append_assoc, List.replicate_add]⟩

theorem runActions_guard_log {A : Type}
    (inner : SigState A → A → SigState A × Nat × List (Nat × A))
    (hinner : ∀ (st : SigState A) (args : A), st.emitGuard = true → inner st args = (st, 0, []))
    (args : A) :
    ∀ (acts : List SAction) (st : SigState A), st.emitGuard = true →
      (runActions inner args acts st).emitGuard = true ∧
      LogExt st (runActions inner args acts st) := by
  intro acts
  induction acts with
  | nil => intro st h; exact ⟨h, logExt_refl st⟩
  | cons a rest ih =>
    intro st h
    cases a with
    | connectNew j =>
      have := ih { st with
          store := storeUpdate st.store j (fun _ => freshSlot),
          slotIds := st.slotIds ++ [j] } h
      exact ⟨this.1, this.2⟩
    | disconn j =>
      have := ih (sigDisconnect st j) h
      exact ⟨this.1, this.2⟩
    | setEnabledAct j b =>
      have := ih { st with store := storeUpdate st.store j (fun s => { s with enabled := b }) } h
      exact ⟨this.1, this.2⟩
    | killTarget j =>
      have := ih { st with store := storeUpdate st.store j (fun s =>
          { s with
            kind := match s.kind with
                    | SlotKind.method _ => SlotKind.method false
                    | k => k,
            trackersValid := false }) } h
      exact ⟨this.1, this.2⟩
    | reemit =>
      have hrw : runActions inner args (SAction.reemit :: rest) st =
          runActions inner args rest
            { st with reemitLog := st.reemitLog ++ [(0, 0)] } := by
        rw [runActions]
        simp only [hinner st args h, List.length_nil]
      rw [hrw]
      have := ih { st with reemitLog := st.reemitLog ++ [(0, 0)] } h
      refine ⟨this.1, logExt_trans ?_ this.2⟩
      exact ⟨1, by simp⟩

theorem activateSlot_invoked_guard_log {A : Type}
    (inner : SigState A → A → SigState A × Nat × List (Nat × A))
    (hinner : ∀ (st : SigState A) (args : A), st.emitGuard = true → inner st args = (st, 0, []))
    (args : A) (s : SlotM) (st : SigState A) (h : st.emitGuard = true) :
    ∀ st', activateSlot inner args s st = ActResult.invoked st' →
      st'.emitGuard = true ∧ LogExt st st' := by
  intro st' hact
  unfold activateSlot at hact
  by_cases he : s.enabled
  · simp [he] at hact
    cases hk : s.kind with
    | func acts =>
      rw [hk] at hact
      simp at hact
      rw [← hact]
      exact runActions_guard_log inner hinner args acts st h
    | method alive =>
      rw [hk] at hact
      cases alive with
      | false => simp at hact
      | true =>
        simp at hact
        rw [← hact]
        exact ⟨h, logExt_refl st⟩
  · simp [he] at hact

theorem emitLoop_guard_log {A : Type}
    (inner : SigState A → A → SigState A × Nat × List (Nat × A))
    (hinner : ∀ (st : SigState A) (args : A), st.emitGuard = true → inner st args = (st, 0, []))
    (args : A) :
    ∀ (snapshot : List Nat) (st : SigState A), st.emitGuard = true →
      (emitLoop inner args snapshot st).1.emitGuard = true ∧
      LogExt st (emitLoop inner args snapshot st).1 := by
  intro snapshot
  induction snapshot with
  | nil => intro st h; exact ⟨h, logExt_refl st⟩
  | cons i rest ih =>
    intro st h
    by_cases hc : isConnectedM (st.store i)
    · cases hact : activateSlot inner args (st.store i) st with
      | skipped =>
        simpa [emitLoop, hc, hact] using ih st h
      | invoked st' =>
        have hst' := activateSlot_invoked_guard_log inner hinner args (st.store i) st h st' hact
        have := ih st' hst'.1
        refine ⟨?_, ?_⟩
        · simpa [emitLoop, hc, hact] using this.1
        · have : LogExt st (emitLoop inner args rest st').1 := logExt_trans hst'.2 this.2
          simpa [emitLoop, hc, hact] using this
      | raised e =>
        have hg : (sigDisconnect st i).emitGuard = true := h
        have := ih (sigDisconnect st i) hg
        refine ⟨?_, ?_⟩
        · simpa [emitLoop, hc, hact] using this.1
        · have hlog : LogExt st (emitLoop inner args rest (sigDisconnect st i)).1 := by
            refine logExt_trans ?_ this.2
            exact ⟨0, by simp [sigDisconnect]⟩
          simpa [emitLoop, hc, hact] using hlog
    · simpa [emitLoop, hc] using ih st h

/-- Claim C2: if the signal is blocked or an emission of the same signal
is already in progress (the emission guard is held), invoking the signal
returns an invocation count of zero immediately, with no slot invoked and
the state unchanged; and every re-entrant emission attempted from inside
one of the signal's own running slots returns 0 and invokes no slot (so no
slot is invoked twice on behalf of an inner attempt). -/
theorem blocked_or_reentrant_emission_is_rejected :
    (∀ (A : Type) (fuel : Nat) (st : SigState A) (args : A),
        (st.blocked || st.emitGuard) = true → emitFuel fuel st args = (st, 0, []))
    ∧ (∀ (A : Type) (fuel : Nat) (st : SigState A) (args : A),
        ∃ k, (emitSignal fuel st args).1.reemitLog
              = st.reemitLog ++ List.replicate k (0, 0)) := by
  constructor
  · exact emitFuel_held
  · intro A fuel st args
    unfold emitSignal
    by_cases h : (st.blocked || st.emitGuard) = true
    · rw [emitFuel_held A (fuel + 1) st args h]
      exact ⟨0, by simp⟩
    · have hb : st.blocked = false := by
        cases hbb : st.blocked
        · rfl
        · exact absurd (by simp [hbb]) h
      have hg : st.emitGuard = false := by
        cases hgg : st.emitGuard
        · rfl
        · exact absurd (by simp [hgg]) h
      simp only [emitFuel, hb, hg, Bool.or_self, Bool.false_eq_true, if_false]
      set st1 : SigState A := { st with emitGuard := true } with hst1
      set pruned := st1.slotIds.filter (fun i => isConnectedM (st1.store i)) with hpruned
      set st2 : SigState A := { st1 with slotIds := pruned } with hst2
      have hg2 : st2.emitGuard = true := rfl
      have hinner : ∀ (s : SigState A) (a : A), s.emitGuard = true →
          emitFuel fuel s a = (s, 0, []) := by
        intro s a hs
        exact emitFuel_held A fuel s a (by simp [hs])
      have := emitLoop_guard_log (emitFuel fuel) hinner args pruned st2 hg2
      obtain ⟨k, hk⟩ := this.2
      exact ⟨k, by simpa [st2, st1, hb] using hk⟩

/-- Witness for claim C2 at concrete inputs: with the guard held the
emission returns zero touching nothing, and in a signal whose only slot
re-emits, every inner attempt logged returned (0, 0). -/
theorem blocked_or_reentrant_emission_is_rejected_witness :
    ((wStGuard.blocked || wStGuard.emitGuard) = true
      ∧ emitFuel 5 wStGuard (3, 4) = (wStGuard, 0, []))
    ∧ (∃ k, (emitSignal 5 wStReemit (3, 4)).1.reemitLog
              = wStReemit.reemitLog ++ List.replicate k (0, 0)) :=
  ⟨⟨by decide,
    blocked_or_reentrant_emission_is_rejected.1 (Nat × Nat) 5 wStGuard (3, 4) (by decide)⟩,
   blocked_or_reentrant_emission_is_rejected.2 (Nat × Nat) 5 wStReemit (3, 4)⟩

theorem emitLoop_pure {A : Type}
    (inner : SigState A → A → SigState A × Nat × List (Nat × A)) (args : A) :
    ∀ (snapshot : List Nat) (st : SigState A),
      (∀ i ∈ snapshot, isConnectedM (st.store i) = true ∧ PureSlot (st.store i)) →
      emitLoop inner args snapshot st =
        (st, (snapshot.filter (fun i => (st.store i).enabled)).length,
             (snapshot.filter (fun i => (st.store i).enabled)).map (fun i => (i, args))) := by
  intro snapshot
  induction snapshot with
  | nil => intro st _; rfl
  | cons i rest ih =>
    intro st h
    have hi := h i (List.mem_cons_self i rest)
    have hrest : ∀ j ∈ rest, isConnectedM (st.store j) = true ∧ PureSlot (st.store j) :=
      fun j hj => h j (List.mem_cons_of_mem i hj)
    have hloop := ih st hrest
    by_cases he : (st.store i).enabled
    · have hact : activateSlot inner args (st.store i) st = ActResult.invoked st := by
        cases hi.2 with
        | inl hf => simp [activateSlot, he, hf, runActions]
        | inr hm => simp [activateSlot, he, hm]
      simp [emitLoop, hi.1, hact, hloop, List.filter, he]
    · have hact : activateSlot inner args (st.store i) st = ActResult.skipped := by
        simp [activateSlot, he]
      simp [emitLoop, hi.1, hact, hloop, List.filter, he]

/-- Claim C1: with N slots connected in registration order, invoking an
unblocked, guard-free signal with arguments `args` (with every slot's
invocation effect-free, the base scenario of the claim) invokes exactly
the currently connected and enabled subset of the slots, in registration
order, passing each of them `args`, and returns the size of that subset. -/
theorem emission_invokes_connected_enabled_in_order :
    ∀ (A : Type) (fuel : Nat) (st : SigState A) (args : A),
      st.blocked = false → st.emitGuard = false →
      (∀ i ∈ st.slotIds, PureSlot (st.store i)) →
      (emitSignal fuel st args).2.1
          = (st.slotIds.filter (fun i => isConnectedM (st.store i) && (st.store i).enabled)).length
      ∧ (emitSignal fuel st args).2.2
          = (st.slotIds.filter
                (fun i => isConnectedM (st.store i) && (st.store i).enabled)).map
              (fun i => (i, args)) := by
  intro A fuel st args hb hg hp
  unfold emitSignal
  simp only [emitFuel, hb, hg, Bool.or_self, Bool.false_eq_true, if_false]
  set pruned := st.slotIds.filter (fun i => isConnectedM (st.store i)) with hpruned
  set st2 : SigState A :=
    { st with blocked := false, emitGuard := true, slotIds := pruned } with hst2
  have hsub : ∀ i ∈ pruned, isConnectedM (st2.store i) = true ∧ PureSlot (st2.store i) := by
    intro i hi
    rw [hpruned, List.mem_filter] at hi
    exact ⟨hi.2, hp i hi.1⟩
  have hloop := emitLoop_pure (emitFuel fuel) args pruned st2 hsub
  have hcomp := list_filter_comp (fun i => isConnectedM (st.store i))
      (fun i => (st.store i).enabled) st.slotIds
  constructor
  · rw [hloop]
    simp only [hst2, hpruned]
    simp [hcomp]
  · rw [hloop]
    simp only [hst2, hpruned]
    simp [hcomp]

/-- Witness for claim C1: the concrete `Sum(int,int)` scenario — a signal
with two slots, invoked with (3, 4), invokes both slots in order with
(3, 4), returns 2, and a counter incremented by the first argument in the
first slot and the second argument in the second slot ends at exactly 7. -/
theorem emission_invokes_connected_enabled_in_order_witness :
    (wStSum.blocked = false ∧ wStSum.emitGuard = false
      ∧ (∀ i ∈ wStSum.slotIds, PureSlot (wStSum.store i)))
    ∧ (emitSignal 0 wStSum (3, 4)).2.1 = 2
    ∧ (emitSignal 0 wStSum (3, 4)).2.2 = [(1, (3, 4)), (2, (3, 4))]
    ∧ ((emitSignal 0 wStSum (3, 4)).2.2.map
          (fun p => if p.1 = 1 then p.2.1 else p.2.2)).sum = 7 := by
  have h := emission_invokes_connected_enabled_in_order (Nat × Nat) 0 wStSum (3, 4)
      (by decide) (by decide) (by decide)
  have hcount : (emitSignal 0 wStSum (3, 4)).2.1 = 2 :=
    h.1.trans (by decide)
  have htrace : (emitSignal 0 wStSum (3, 4)).2.2 = [(1, (3, 4)), (2, (3, 4))] :=
    h.2.trans (by decide)
  refine ⟨⟨by decide, by decide, by decide⟩, hcount, htrace, ?_⟩
  rw [htrace]
  decide

theorem emitLoop_trace_from_snapshot {A : Type}
    (inner : SigState A → A → SigState A × Nat × List (Nat × A)) (args : A) :
    ∀ (snapshot : List Nat) (st : SigState A),
      ∀ p ∈ (emitLoop inner args snapshot st).2.2, p.1 ∈ snapshot ∧ p.2 = args := by
  intro snapshot
  induction snapshot with
  | nil => intro st p hp; simp [emitLoop] at hp
  | cons i rest ih =>
    intro st p hp
    by_cases hc : isConnectedM (st.store i)
    · cases hact : activateSlot inner args (st.store i) st with
      | skipped =>
        simp only [emitLoop, hc, if_pos, hact] at hp
        have := ih st p hp
        exact ⟨List.mem_cons_of_mem i this.1, this.2⟩
      | invoked st' =>
        simp only [emitLoop, hc, if_pos, hact] at hp
        rcases List.mem_cons.mp hp with h1 | h2
        · rw [h1]
          exact ⟨List.mem_cons_self i rest, rfl⟩
        · have := ih st' p h2
          exact ⟨List.mem_cons_of_mem i this.1, this.2⟩
      | raised e =>
        simp only [emitLoop, hc, if_pos, hact] at hp
        have := ih (sigDisconnect st i) p hp
        exact ⟨List.mem_cons_of_mem i this.1, this.2⟩
    · simp only [emitLoop, hc] at hp
      simp only [Bool.false_eq_true, if_false] at hp
      have := ih st p hp
      exact ⟨List.mem_cons_of_mem i this.1, this.2⟩

/-- Claim C3: the emission first prunes not-connected slots and snapshots
the remainder under the signal's lock: every invocation of the emission is
of a slot that was in the sequence and connected when the snapshot was
taken (so a slot connected during the emission by a running slot is not
invoked in that round), and a slot that is no longer connected when the
loop reaches it is individually skipped — the loop continues over the
unchanged remainder of the snapshot rather than removing anything from
it. -/
theorem emission_snapshot_semantics :
    (∀ (A : Type) (fuel : Nat) (st : SigState A) (args : A),
        ∀ p ∈ (emitSignal fuel st args).2.2,
          p.1 ∈ st.slotIds ∧ isConnectedM (st.store p.1) = true ∧ p.2 = args)
    ∧ (∀ (A : Type) (fuel : Nat) (st : SigState A) (args : A) (j : Nat),
        j ∉ st.slotIds → ∀ p ∈ (emitSignal fuel st args).2.2, p.1 ≠ j)
    ∧ (∀ (A : Type) (inner : SigState A → A → SigState A × Nat × List (Nat × A))
          (args : A) (i : Nat) (rest : List Nat) (st : SigState A),
        isConnectedM (st.store i) = false →
          emitLoop inner args (i :: rest) st = emitLoop inner args rest st) := by
  refine ⟨?_, ?_, ?_⟩
  · intro A fuel st args p hp
    unfold emitSignal at hp
    by_cases h : (st.blocked || st.emitGuard) = true
    · rw [emitFuel_held A (fuel + 1) st args h] at hp
      simp at hp
    · have hb : st.blocked = false := by
        cases hbb : st.blocked
        · rfl
        · exact absurd (by simp [hbb]) h
      have hg : st.emitGuard = false := by
        cases hgg : st.emitGuard
        · rfl
        · exact absurd (by simp [hgg]) h
      simp only [emitFuel, hb, hg, Bool.or_self, Bool.false_eq_true, if_false] at hp
      have := emitLoop_trace_from_snapshot (emitFuel fuel) args
          (st.slotIds.filter (fun i => isConnectedM (st.store i)))
          { blocked := false, emitGuard := true,
            slotIds := st.slotIds.filter (fun i => isConnectedM (st.store i)),
            store := st.store, reemitLog := st.reemitLog } p hp
      have hmem := List.mem_filter.mp this.1
      exact ⟨hmem.1, hmem.2, this.2⟩
  · intro A fuel st args j hj p hp
    intro hpj
    have h1 : (∀ (A : Type) (fuel : Nat) (st : SigState A) (args : A),
        ∀ p ∈ (emitSignal fuel st args).2.2,
          p.1 ∈ st.slotIds ∧ isConnectedM (st.store p.1) = true ∧ p.2 = args) := by
      intro A fuel st args p hp
      unfold emitSignal at hp
      by_cases h : (st.blocked || st.emitGuard) = true
      · rw [emitFuel_held A (fuel + 1) st args h] at hp
        simp at hp
      · have hb : st.blocked = false := by
          cases hbb : st.blocked
          · rfl
          · exact absurd (by simp [hbb]) h
        have hg : st.emitGuard = false := by
          cases hgg : st.emitGuard
          · rfl
          · exact absurd (by simp [hgg]) h
        simp only [emitFuel, hb, hg, Bool.or_self, Bool.false_eq_true, if_false] at hp
        have := emitLoop_trace_from_snapshot (emitFuel fuel) args
            (st.slotIds.filter (fun i => isConnectedM (st.store i)))
            { blocked := false, emitGuard := true,
              slotIds := st.slotIds.filter (fun i => isConnectedM (st.store i)),
              store := st.store, reemitLog := st.reemitLog } p hp
        have hmem := List.mem_filter.mp this.1
        exact ⟨hmem.1, hmem.2, this.2⟩
    have := (h1 A fuel st args p hp).1
    rw [hpj] at this
    exact hj this
  · intro A inner args i rest st h
    simp [emitLoop, h]

/-- Witness for claim C3 at concrete inputs: in a signal whose first slot
connects slot 3 mid-emission, slot 3 is never invoked in that round; and
the loop at a concretely disconnected slot 2 skips it, continuing with the
unchanged remainder of the snapshot. -/
theorem emission_snapshot_semantics_witness :
    (3 ∉ wStMut.slotIds
      ∧ ∀ p ∈ (emitSignal 0 wStMut (0, 0)).2.2, p.1 ≠ 3)
    ∧ (isConnectedM (wStSkip.store 2) = false
      ∧ emitLoop innerNop (0, 0) [2, 1] wStSkip = emitLoop innerNop (0, 0) [1] wStSkip)
    ∧ (emitSignal 0 wStMut (0, 0)).2.2 = [(1, (0, 0))]
    ∧ (emitSignal 0 wStMut (0, 0)).2.1 = 1 := by
  refine ⟨⟨by decide, emission_snapshot_semantics.2.1 (Nat × Nat) 0 wStMut (0, 0) 3 (by decide)⟩,
    ⟨by decide, emission_snapshot_semantics.2.2 (Nat × Nat) innerNop (0, 0) 2 [1] wStSkip (by decide)⟩,
    by decide, by decide⟩

/-- Claim C4: a method slot whose weakly tracked target has expired at
call time (while its trackers still report valid, so the `isConnected`
re-check passes — the per-slot lock is released around the call, so this
is the stale-target window) raises `bad_slot` from its activation instead
of invoking the method; the emission loop catches the failure (the same
handlers catch the forwarding-slot `bad_weak_ptr`), disconnects that slot
through the signal, and continues with the rest of the snapshot — the
failed invocation is not counted and no failure propagates (the loop's
result on the remaining snapshot is the whole result). -/
theorem stale_method_slot_is_caught_and_disconnected :
    ∀ (A : Type) (inner : SigState A → A → SigState A × Nat × List (Nat × A))
      (args : A) (i : Nat) (rest : List Nat) (st : SigState A),
      (st.store i).connected = true →
      (st.store i).trackersValid = true →
      (st.store i).enabled = true →
      (st.store i).kind = SlotKind.method false →
      activateSlot inner args (st.store i) st = ActResult.raised Err.badSlot
      ∧ emitLoop inner args (i :: rest) st = emitLoop inner args rest (sigDisconnect st i)
      ∧ ((sigDisconnect st i).store i).connected = false
      ∧ i ∉ (sigDisconnect st i).slotIds := by
  intro A inner args i rest st hc ht he hk
  have hconn : isConnectedM (st.store i) = true := by
    simp [isConnectedM, hc, ht]
  have hact : activateSlot inner args (st.store i) st = ActResult.raised Err.badSlot := by
    simp [activateSlot, he, hk]
  refine ⟨hact, ?_, ?_, ?_⟩
  · simp [emitLoop, hconn, hact]
  · simp [sigDisconnect, storeUpdate, slotObjDisconnect]
  · simp [sigDisconnect]

/-- Witness for claim C4: a concrete emission over a stale method slot
followed by a live function slot — the stale slot's activation raises
`bad_slot`, the loop equation holds, and the full emission invokes only
the second slot, counts 1 and ends with the stale slot disconnected and
removed. -/
theorem stale_method_slot_is_caught_and_disconnected_witness :
    ((wStStale.store 1).connected = true ∧ (wStStale.store 1).trackersValid = true
      ∧ (wStStale.store 1).enabled = true ∧ (wStStale.store 1).kind = SlotKind.method false)
    ∧ activateSlot innerNop (0, 0) (wStStale.store 1) wStStale = ActResult.raised Err.badSlot
    ∧ (emitSignal 0 wStStale (0, 0)).2.1 = 1
    ∧ (emitSignal 0 wStStale (0, 0)).2.2 = [(2, (0, 0))]
    ∧ ((emitSignal 0 wStStale (0, 0)).1.store 1).connected = false
    ∧ (emitSignal 0 wStStale (0, 0)).1.slotIds = [2] := by
  have h := stale_method_slot_is_caught_and_disconnected (Nat × Nat) innerNop (0, 0) 1 [2]
      wStStale (by decide) (by decide) (by decide) (by decide)
  exact ⟨⟨by decide, by decide, by decide, by decide⟩, h.1,
    by decide, by decide, by decide, by decide⟩

theorem signalDtorLoop_mono {A : Type} :
    ∀ (l : List Nat) (st : SigState A) (i : Nat),
      ((st.store i).connected = false) →
      ((signalDtorLoop l st).store i).connected = false := by
  intro l
  induction l with
  | nil => intro st i h; exact h
  | cons j rest ih =>
    intro st i h
    apply ih
    by_cases hij : i = j
    · simp [storeUpdate, hij, slotObjDisconnect]
    · simp [storeUpdate, hij, h]

theorem signalDtorLoop_disconnects {A : Type} :
    ∀ (l : List Nat) (st : SigState A) (i : Nat), i ∈ l →
      ((signalDtorLoop l st).store i).connected = false := by
  intro l
  induction l with
  | nil => intro st i h; simp at h
  | cons j rest ih =>
    intro st i h
    rcases List.mem_cons.mp h with h1 | h2
    · have hstep : signalDtorLoop (j :: rest) st =
          signalDtorLoop rest { st with store := storeUpdate st.store j slotObjDisconnect } :=
        rfl
      rw [hstep]
      apply signalDtorLoop_mono
      simp [storeUpdate, h1, slotObjDisconnect]
    · exact ih _ i h2

/-- Claim C5: destroying a signal pops and disconnects, under the lock,
every slot still in its collection, leaving the sequence empty; afterwards
every outstanding connection referencing any of those slots reports
not-live through its boolean conversion (whatever the state of the
connection's sender pointer and whether or not the slot object itself is
still alive through other owners). -/
theorem signal_dtor_invalidates_connections :
    ∀ (A : Type) (st : SigState A) (i : Nat), i ∈ st.slotIds →
      ((signalDtor st).store i).connected = false
      ∧ (∀ senderSet slotAlive : Bool, connBoolM senderSet slotAlive (signalDtor st) i = false)
      ∧ (signalDtor st).slotIds = [] := by
  intro A st i hi
  have hc : ((signalDtor st).store i).connected = false := by
    unfold signalDtor
    exact signalDtorLoop_disconnects st.slotIds.reverse st i (List.mem_reverse.mpr hi)
  refine ⟨hc, ?_, rfl⟩
  intro senderSet slotAlive
  simp [connBoolM, isConnectedM, hc]

/-- Witness for claim C5: destroying a concrete signal with slots 1 and 2
leaves both disconnected, the sequence empty, and a connection to slot 1
reporting not-live for every sender/aliveness combination. -/
theorem signal_dtor_invalidates_connections_witness :
    (1 ∈ wStDtor.slotIds)
    ∧ ((signalDtor wStDtor).store 1).connected = false
    ∧ connBoolM true true (signalDtor wStDtor) 1 = false
    ∧ (signalDtor wStDtor).slotIds = [] := by
  have h := signal_dtor_invalidates_connections (Nat × Nat) wStDtor 1 (by decide)
  exact ⟨by decide, h.1, h.2.1 true true, h.2.2⟩

/-- Counterexample for claim C6: at concrete inputs, the core-generation
`Connection::disconnect` on a connection holding a live slot does not
clear the connection (the weak slot reference still resolves to slot 1
afterwards), and the sywu-generation `Connection::disconnect` on an
already-invalid connection is not a no-op: its `SYWU_ASSERT(slot)` is a
fatal assertion. -/
theorem conn_disconnect_counterexample :
    (coreConnDisconnect wStDtor { slotRef := some 1 }).2.slotRef = some 1
    ∧ (coreConnDisconnect wStDtor { slotRef := some 1 }).2.slotRef ≠ none
    ∧ sywuConnDisconnect wStDtor { slotRef := none } = none :=
  ⟨rfl, by simp [coreConnDisconnect], rfl⟩

/-- Claim C6 as amended: `Connection::disconnect()` resolves the weak
slot reference and, when a slot is present, calls that slot's
`disconnect()`.  The core-generation connection leaves its weak slot
reference in place (the connection nevertheless reports not-live
afterwards, because the slot is disconnected) and is a no-op — neither
failing nor aborting — when no live slot is present; the sywu-generation
connection clears its slot and sender references after disconnecting, but
asserts fatally instead of no-op-ing when no live slot is present. -/
theorem conn_disconnect_amended :
    ∀ (A : Type) (st : SigState A) (c : ConnM) (i : Nat),
      (c.slotRef = none → coreConnDisconnect st c = (st, c))
      ∧ (c.slotRef = some i →
          (((coreConnDisconnect st c).1.store i).connected = false
           ∧ (coreConnDisconnect st c).2 = c
           ∧ connBoolM true true (coreConnDisconnect st c).1 i = false))
      ∧ (c.slotRef = none → sywuConnDisconnect st c = none)
      ∧ (c.slotRef = some i →
          (sywuConnDisconnect st c).map (fun r => r.2.slotRef) = some none
          ∧ (sywuConnDisconnect st c).map (fun r => (r.1.store i).connected) = some false) := by
  intro A st c i
  refine ⟨?_, ?_, ?_, ?_⟩
  · intro h
    simp [coreConnDisconnect, h]
  · intro h
    refine ⟨?_, ?_, ?_⟩
    · simp [coreConnDisconnect, h, storeUpdate, slotObjDisconnect]
    · simp [coreConnDisconnect, h]
    · simp [coreConnDisconnect, h, connBoolM, isConnectedM, storeUpdate, slotObjDisconnect]
  · intro h
    simp [sywuConnDisconnect, h]
  · intro h
    constructor
    · simp [sywuConnDisconnect, h]
    · simp [sywuConnDisconnect, h, storeUpdate, slotObjDisconnect]

/-- Witness for claim C6 (amended) at concrete inputs: the no-op case and
the live-slot case of the core generation, and both cases of the sywu
generation. -/
theorem conn_disconnect_amended_witness :
    (coreConnDisconnect wStDtor { slotRef := none } = (wStDtor, { slotRef := none })
      ∧ ((coreConnDisconnect wStDtor { slotRef := some 1 }).1.store 1).connected = false
      ∧ (coreConnDisconnect wStDtor { slotRef := some 1 }).2 = { slotRef := some 1 }
      ∧ connBoolM true true (coreConnDisconnect wStDtor { slotRef := some 1 }).1 1 = false)
    ∧ (sywuConnDisconnect wStDtor { slotRef := none } = none
      ∧ (sywuConnDisconnect wStDtor { slotRef := some 1 }).map (fun r => r.2.slotRef) = some none
      ∧ (sywuConnDisconnect wStDtor { slotRef := some 1 }).map
          (fun r => (r.1.store 1).connected) = some false) := by
  have hn := conn_disconnect_amended (Nat × Nat) wStDtor { slotRef := none } 1
  have hs := conn_disconnect_amended (Nat × Nat) wStDtor { slotRef := some 1 } 1
  exact ⟨⟨hn.1 rfl, (hs.2.1 rfl).1, (hs.2.1 rfl).2.1, (hs.2.1 rfl).2.2⟩,
    ⟨hn.2.2.1 rfl, (hs.2.2.2 rfl).1, (hs.2.2.2 rfl).2⟩⟩

/-- Claim C10: `Signal::disconnect(connection)` over a connection
resolving to slot `i` removes every occurrence of that slot from the
sequence — not just the first — and leaves all other slots present and in
their original relative order (the result is a subsequence of the
original, with membership unchanged for every other identity); when the
connection does not resolve to a slot, the state is unchanged. -/
theorem signal_disconnect_frame :
    ∀ (A : Type) (st : SigState A) (c : Option Nat) (i : Nat),
      (c = some i →
        (i ∉ (sigDisconnectConn st c).slotIds
         ∧ (sigDisconnectConn st c).slotIds.Sublist st.slotIds
         ∧ ∀ j, j ≠ i → (j ∈ (sigDisconnectConn st c).slotIds ↔ j ∈ st.slotIds)))
      ∧ (c = none → sigDisconnectConn st c = st) := by
  intro A st c i
  constructor
  · intro h
    subst h
    refine ⟨?_, ?_, ?_⟩
    · simp [sigDisconnectConn, sigDisconnect]
    · exact List.filter_sublist st.slotIds
    · intro j hj
      simp [sigDisconnectConn, sigDisconnect, List.mem_filter, hj]
  · intro h
    subst h
    rfl

/-- Witness for claim C10: a concrete sequence [1, 2, 1, 3] holding slot 1
twice — disconnecting slot 1 removes both occurrences, keeps 2 and 3 in
their original order, and a connection that resolves to no slot leaves the
state unchanged. -/
theorem signal_disconnect_frame_witness :
    (1 ∉ (sigDisconnectConn wStDup (some 1)).slotIds
      ∧ (sigDisconnectConn wStDup (some 1)).slotIds.Sublist wStDup.slotIds
      ∧ (2 ∈ (sigDisconnectConn wStDup (some 1)).slotIds ↔ 2 ∈ wStDup.slotIds))
    ∧ (sigDisconnectConn wStDup (some 1)).slotIds = [2, 3]
    ∧ sigDisconnectConn wStDup none = wStDup := by
  have h := signal_disconnect_frame (Nat × Nat) wStDup (some 1) 1
  have h0 := signal_disconnect_frame (Nat × Nat) wStDup none 1
  exact ⟨⟨(h.1 rfl).1, (h.1 rfl).2.1, (h.1 rfl).2.2 2 (by decide)⟩,
    by decide, h0.2 rfl⟩

theorem release_retain_id (t : TrackerT) :
    releaseT { t with cnt := t.cnt + 1 } = t := by
  cases t with
  | mk v c => simp [releaseT]

theorem map_release_map_retain (l : List TrackerT) :
    (l.map (fun t => { t with cnt := t.cnt + 1 })).map releaseT = l := by
  induction l with
  | nil => rfl
  | cons t ts ih => simp [ih, release_retain_id t]

theorem releaseFirstN_exact :
    ∀ (l1 l2 : List TrackerT), releaseFirstN l1.length (l1 ++ l2) = l1.map releaseT ++ l2 := by
  intro l1
  induction l1 with
  | nil =>
    intro l2
    cases l2 with
    | nil => rfl
    | cons t ts => rfl
  | cons t ts ih =>
    intro l2
    simp only [List.length_cons, List.cons_append, releaseFirstN, List.map_cons]
    exact congrArg (releaseT t :: ·) (ih l2)

theorem releaseFirstN_eq (n : Nat) (l1 l2 : List TrackerT) (h : l1.length = n) :
    releaseFirstN n (l1 ++ l2) = l1.map releaseT ++ l2 :=
  h ▸ releaseFirstN_exact l1 l2

theorem retainPass_none_spec :
    ∀ trs : List TrackerT, (retainPass trs).2 = none →
      (retainPass trs).1 = trs.map (fun t => { t with cnt := t.cnt + 1 })
      ∧ trs.all TrackerT.valid = true := by
  intro trs
  induction trs with
  | nil => intro _; simp [retainPass]
  | cons t ts ih =>
    intro h
    by_cases hv : t.valid
    · have hstep : retainPass (t :: ts) =
          ({ t with cnt := t.cnt + 1 } :: (retainPass ts).1,
           (retainPass ts).2.map (· + 1)) := by
        simp [retainPass, retainT, hv]
      rw [hstep] at h ⊢
      simp only [Option.map_eq_none'] at h
      obtain ⟨h1, h2⟩ := ih h
      simp [h1, h2, hv]
    · have hstep : retainPass (t :: ts) = (t :: ts, some 0) := by
        simp [retainPass, retainT, hv]
      rw [hstep] at h
      simp at h

theorem retainPass_some_spec :
    ∀ (trs : List TrackerT) (i : Nat), (retainPass trs).2 = some i →
      (retainPass trs).1
          = (trs.take i).map (fun t => { t with cnt := t.cnt + 1 }) ++ trs.drop i
      ∧ trs.all TrackerT.valid = false
      ∧ (trs.take i).length = i := by
  intro trs
  induction trs with
  | nil => intro i h; simp [retainPass] at h
  | cons t ts ih =>
    intro i h
    by_cases hv : t.valid
    · have hstep : retainPass (t :: ts) =
          ({ t with cnt := t.cnt + 1 } :: (retainPass ts).1,
           (retainPass ts).2.map (· + 1)) := by
        simp [retainPass, retainT, hv]
      rw [hstep] at h ⊢
      simp only [Option.map_eq_some'] at h
      obtain ⟨j, hj, hij⟩ := h
      obtain ⟨h1, h2, h3⟩ := ih j hj
      subst hij
      refine ⟨?_, ?_, ?_⟩
      · simp [h1]
      · simp [h2]
      · simp [h3]
    · have hstep : retainPass (t :: ts) = (t :: ts, some 0) := by
        simp [retainPass, retainT, hv]
      rw [hstep] at h ⊢
      have hi : i = 0 := by simpa using h.symm
      subst hi
      simp [hv]

theorem retainPass_idx :
    ∀ trs : List TrackerT, (retainPass trs).2 = firstFailIdx trs := by
  intro trs
  induction trs with
  | nil => rfl
  | cons t ts ih =>
    by_cases hv : t.valid
    · simp [retainPass, retainT, hv, firstFailIdx, ih]
    · simp [retainPass, retainT, hv, firstFailIdx]

/-- Claim C7: the validity check retains the trackers one by one and fails
fast at the first tracker reporting invalid (`retainPass` stops exactly at
that index), releasing precisely the trackers retained so far and
returning false; on success every tracker is released after the pass and
the slot-specific validity is returned.  In both outcomes the tracker list
after the check is exactly the tracker list before it — every tracker's
net retain count is unchanged and no tracker stays retained across
calls. -/
theorem slot_validity_check_balanced :
    ∀ (trs : List TrackerT) (ov : Bool),
      (slotIsValidChk trs ov).1 = trs
      ∧ (slotIsValidChk trs ov).2 = (trs.all TrackerT.valid && ov)
      ∧ (retainPass trs).2 = firstFailIdx trs := by
  intro trs ov
  refine ⟨?_, ?_, retainPass_idx trs⟩
  · cases hp : (retainPass trs).2 with
    | none =>
      have hred : slotIsValidChk trs ov = ((retainPass trs).1.map releaseT, ov) := by
        unfold slotIsValidChk
        rw [hp]
      obtain ⟨h1, _⟩ := retainPass_none_spec trs hp
      rw [hred]
      show (retainPass trs).1.map releaseT = trs
      rw [h1]
      exact map_release_map_retain trs
    | some i =>
      have hred : slotIsValidChk trs ov = (releaseFirstN i (retainPass trs).1, false) := by
        unfold slotIsValidChk
        rw [hp]
      obtain ⟨h1, _, h3⟩ := retainPass_some_spec trs i hp
      have hlen : ((trs.take i).map (fun t => { t with cnt := t.cnt + 1 })).length = i := by
        rw [List.length_map]
        exact h3
      rw [hred]
      show releaseFirstN i (retainPass trs).1 = trs
      rw [h1, releaseFirstN_eq i _ _ hlen, map_release_map_retain, List.take_append_drop]
  · cases hp : (retainPass trs).2 with
    | none =>
      have hred : slotIsValidChk trs ov = ((retainPass trs).1.map releaseT, ov) := by
        unfold slotIsValidChk
        rw [hp]
      obtain ⟨_, h2⟩ := retainPass_none_spec trs hp
      rw [hred]
      show ov = (trs.all TrackerT.valid && ov)
      rw [h2, Bool.true_and]
    | some i =>
      have hred : slotIsValidChk trs ov = (releaseFirstN i (retainPass trs).1, false) := by
        unfold slotIsValidChk
        rw [hp]
      obtain ⟨_, h2, _⟩ := retainPass_some_spec trs i hp
      rw [hred]
      show false = (trs.all TrackerT.valid && ov)
      rw [h2, Bool.false_and]

theorem trkWorld_ext {w1 w2 : TrkWorld}
    (h1 : w1.slots = w2.slots) (h2 : w1.tslots = w2.tslots) : w1 = w2 := by
  cases w1
  cases w2
  cases h1
  cases h2
  rfl

theorem detachAll_untouched (sid : Nat) :
    ∀ (l : List Nat) (ts : Nat → List Nat) (u : Nat), u ∉ l → detachAll sid l ts u = ts u := by
  intro l
  induction l with
  | nil => intro ts u _; rfl
  | cons t rest ih =>
    intro ts u hu
    have hut : u ≠ t := fun h => hu (h ▸ List.mem_cons_self t rest)
    have hur : u ∉ rest := fun h => hu (List.mem_cons_of_mem t h)
    have hstep : detachAll sid (t :: rest) ts =
        detachAll sid rest (fun v => if v = t then (ts v).erase sid else ts v) := rfl
    rw [hstep, ih _ u hur]
    simp [hut]

theorem detachAll_sublist (sid : Nat) :
    ∀ (l : List Nat) (ts : Nat → List Nat) (u : Nat), (detachAll sid l ts u).Sublist (ts u) := by
  intro l
  induction l with
  | nil => intro ts u; exact List.Sublist.refl _
  | cons t rest ih =>
    intro ts u
    have hstep : detachAll sid (t :: rest) ts =
        detachAll sid rest (fun v => if v = t then (ts v).erase sid else ts v) := rfl
    rw [hstep]
    refine (ih _ u).trans ?_
    by_cases hu : u = t
    · simp only [hu, if_pos rfl]
      exact List.erase_sublist sid (ts t)
    · simp only [hu, if_false]
      exact List.Sublist.refl _

theorem detachAll_mem_of_ne (sid : Nat) :
    ∀ (l : List Nat) (ts : Nat → List Nat) (u x : Nat),
      x ≠ sid → x ∈ ts u → x ∈ detachAll sid l ts u := by
  intro l
  induction l with
  | nil => intro ts u x _ hx; exact hx
  | cons t rest ih =>
    intro ts u x hxs hx
    have hstep : detachAll sid (t :: rest) ts =
        detachAll sid rest (fun v => if v = t then (ts v).erase sid else ts v) := rfl
    rw [hstep]
    apply ih _ u x hxs
    by_cases hu : u = t
    · simp only [hu, if_pos rfl]
      exact (List.mem_erase_of_ne hxs).mpr (hu ▸ hx)
    · simp only [hu, if_false]
      exact hx

theorem detachAll_removes (sid : Nat) :
    ∀ (l : List Nat) (ts : Nat → List Nat),
      (∀ u, (ts u).count sid ≤ 1) →
      ∀ t ∈ l, sid ∉ detachAll sid l ts t := by
  intro l
  induction l with
  | nil => intro ts _ t ht; simp at ht
  | cons t0 rest ih =>
    intro ts hcount t ht
    have hstep : detachAll sid (t0 :: rest) ts =
        detachAll sid rest (fun v => if v = t0 then (ts v).erase sid else ts v) := rfl
    rw [hstep]
    have hcount' : ∀ u, ((fun v => if v = t0 then (ts v).erase sid else ts v) u).count sid ≤ 1 := by
      intro u
      by_cases hu : u = t0
      · simp only [hu, if_pos rfl]
        exact le_trans ((List.erase_sublist sid (ts t0)).count_le sid) (hcount t0)
      · simp only [hu, if_false]
        exact hcount u
    by_cases hmem : t ∈ rest
    · exact ih _ hcount' t hmem
    · have ht0 : t = t0 := by
        rcases List.mem_cons.mp ht with h | h
        · exact h
        · exact absurd h hmem
      rw [detachAll_untouched sid rest _ t hmem]
      simp only [ht0, if_pos rfl]
      have hz : ((ts t0).erase sid).count sid = 0 := by
        have := List.count_erase_self sid (ts t0)
        have hc := hcount t0
        omega
      exact (List.count_eq_zero.mp hz)

/-- Claim C8: `Slot::disconnect()` is idempotent; it detaches every
attached tracker — each attached trackable is notified and removes this
slot from its recorded slot list — clears the tracker list, and marks the
slot disconnected; and no slot operation of the model ever turns a
disconnected slot back to connected (it is never reactivated). -/
theorem slot_disconnect_contract :
    ∀ (sid : Nat) (w : TrkWorld),
      slotDisconnectW sid (slotDisconnectW sid w) = slotDisconnectW sid w
      ∧ ((slotDisconnectW sid w).slots sid).connected = false
      ∧ ((slotDisconnectW sid w).slots sid).trackers = []
      ∧ ((∀ u, (w.tslots u).count sid ≤ 1) →
          ∀ t ∈ (w.slots sid).trackers, sid ∉ (slotDisconnectW sid w).tslots t)
      ∧ (∀ op : SlotOp, (w.slots sid).connected = false →
          ((applySlotOp sid op w).slots sid).connected = false) := by
  intro sid w
  have hsl : (slotDisconnectW sid w).slots sid =
      { connected := false, enabled := (w.slots sid).enabled, trackers := [] } := by
    simp [slotDisconnectW]
  refine ⟨?_, by rw [hsl], by rw [hsl], ?_, ?_⟩
  · apply trkWorld_ext
    · funext j
      by_cases hj : j = sid
      · subst hj
        simp [slotDisconnectW]
      · simp [slotDisconnectW, hj]
    · show detachAll sid ((slotDisconnectW sid w).slots sid).trackers
          (slotDisconnectW sid w).tslots = (slotDisconnectW sid w).tslots
      rw [hsl]
      exact rfl
  · intro hcount t ht
    show sid ∉ detachAll sid (w.slots sid).trackers w.tslots t
    exact detachAll_removes sid _ w.tslots hcount t ht
  · intro op hconn
    cases op with
    | setEnabledOp b => simpa [applySlotOp] using hconn
    | disconnectOp =>
      show ((slotDisconnectW sid w).slots sid).connected = false
      rw [hsl]
    | addTrackerOp t => simp [applySlotOp, hconn]

/-- Witness for claim C8 at a concrete world: disconnecting slot 1 of
`wTrk` twice equals disconnecting it once; the slot ends disconnected with
no trackers; trackable 1 (the slot's one tracker) no longer records slot
1; and a subsequent enable operation does not reconnect it. -/
theorem slot_disconnect_contract_witness :
    slotDisconnectW 1 (slotDisconnectW 1 wTrk) = slotDisconnectW 1 wTrk
    ∧ ((slotDisconnectW 1 wTrk).slots 1).connected = false
    ∧ ((slotDisconnectW 1 wTrk).slots 1).trackers = []
    ∧ (1 ∈ (wTrk.slots 1).trackers ∧ 1 ∉ (slotDisconnectW 1 wTrk).tslots 1)
    ∧ ((applySlotOp 1 (SlotOp.setEnabledOp true) (slotDisconnectW 1 wTrk)).slots 1).connected
        = false := by
  have h := slot_disconnect_contract 1 wTrk
  have hcount : ∀ u, (wTrk.tslots u).count 1 ≤ 1 := by
    intro u
    by_cases hu : u = 1
    · subst hu; simp [wTrk]
    · simp [wTrk, hu]
  have h2 := slot_disconnect_contract 1 (slotDisconnectW 1 wTrk)
  exact ⟨h.1, h.2.1, h.2.2.1,
    ⟨by decide, h.2.2.2.1 hcount 1 (by decide)⟩,
    h2.2.2.2.2 (SlotOp.setEnabledOp true) h.2.1⟩

theorem disconnectSlotsFuel_step (n t : Nat) (w : TrkWorld) (s : Nat)
    (hlast : (w.tslots t).getLast? = some s) :
    disconnectSlotsFuel (n + 1) t w =
      disconnectSlotsFuel n t (slotDisconnectW s
        { w with tslots := fun u => if u = t then (w.tslots t).dropLast else w.tslots u }) := by
  conv_lhs => simp only [disconnectSlotsFuel]
  rw [hlast]

theorem slotDisconnectW_mono (s : Nat) (w : TrkWorld) (x : Nat)
    (h : (w.slots x).connected = false) :
    ((slotDisconnectW s w).slots x).connected = false := by
  by_cases hx : x = s
  · subst hx
    simp [slotDisconnectW]
  · simpa [slotDisconnectW, hx] using h

theorem disconnectSlotsFuel_mono :
    ∀ (fuel t : Nat) (w : TrkWorld) (x : Nat), (w.slots x).connected = false →
      ((disconnectSlotsFuel fuel t w).slots x).connected = false := by
  intro fuel
  induction fuel with
  | zero => intro t w x h; exact h
  | succ n ih =>
    intro t w x h
    cases hlast : (w.tslots t).getLast? with
    | none =>
      have hstep : disconnectSlotsFuel (n + 1) t w = w := by
        unfold disconnectSlotsFuel
        rw [hlast]
      rw [hstep]
      exact h
    | some s =>
      have hstep := disconnectSlotsFuel_step n t w s hlast
      rw [hstep]
      exact ih t _ x (slotDisconnectW_mono s _ x h)

theorem disconnectSlots_spec :
    ∀ (fuel t : Nat) (w : TrkWorld), (w.tslots t).length ≤ fuel →
      (disconnectSlotsFuel fuel t w).tslots t = []
      ∧ ∀ s ∈ w.tslots t, ((disconnectSlotsFuel fuel t w).slots s).connected = false := by
  intro fuel
  induction fuel with
  | zero =>
    intro t w h
    have hnil : w.tslots t = [] := List.eq_nil_of_length_eq_zero (Nat.le_zero.mp h)
    refine ⟨hnil, ?_⟩
    intro s hs
    rw [hnil] at hs
    simp at hs
  | succ n ih =>
    intro t w h
    cases hlast : (w.tslots t).getLast? with
    | none =>
      have hnil : w.tslots t = [] := List.getLast?_eq_none_iff.mp hlast
      have hstep : disconnectSlotsFuel (n + 1) t w = w := by
        unfold disconnectSlotsFuel
        rw [hlast]
      rw [hstep]
      refine ⟨hnil, ?_⟩
      intro s hs
      rw [hnil] at hs
      simp at hs
    | some s =>
      set w1 : TrkWorld :=
        { w with tslots := fun u => if u = t then (w.tslots t).dropLast else w.tslots u } with hw1
      set w2 : TrkWorld := slotDisconnectW s w1 with hw2
      have hstep : disconnectSlotsFuel (n + 1) t w = disconnectSlotsFuel n t w2 := by
        rw [disconnectSlotsFuel_step n t w s hlast]
      have hdecomp : (w.tslots t).dropLast ++ [s] = w.tslots t :=
        List.dropLast_append_getLast? s (Option.mem_def.mpr hlast)
      have hw1t : w1.tslots t = (w.tslots t).dropLast := by
        rw [hw1]
        simp
      have hw2sub : (w2.tslots t).Sublist (w1.tslots t) := by
        rw [hw2]
        exact detachAll_sublist s _ w1.tslots t
      have hlen2 : (w2.tslots t).length ≤ n := by
        have h1 := hw2sub.length_le
        rw [hw1t, List.length_dropLast] at h1
        have hpos : w.tslots t ≠ [] := by
          intro hc
          rw [hc] at hlast
          simp at hlast
        have : 1 ≤ (w.tslots t).length := by
          cases hq : w.tslots t with
          | nil => exact absurd hq hpos
          | cons a l => simp
        omega
      have hrec := ih t w2 hlen2
      refine ⟨by rw [hstep]; exact hrec.1, ?_⟩
      intro x hx
      rw [← hdecomp] at hx
      rw [hstep]
      by_cases hxs : x = s
      · subst hxs
        apply disconnectSlotsFuel_mono
        rw [hw2]
        simp [slotDisconnectW]
      · have hxdrop : x ∈ (w.tslots t).dropLast := by
          rcases List.mem_append.mp hx with h1 | h1
          · exact h1
          · exact absurd (List.mem_singleton.mp h1) hxs
        have hxw1 : x ∈ w1.tslots t := by
          rw [hw1t]
          exact hxdrop
        have hxw2 : x ∈ w2.tslots t := by
          rw [hw2]
          exact detachAll_mem_of_ne s _ w1.tslots t x hxs hxw1
        exact hrec.2 x hxw2

/-- Claim C9: destroying a `Trackable` (and likewise the explicit
early-disconnect call, which runs the same loop) synchronously disconnects
every slot still attached to it and empties its recorded slot list before
the object's storage is reclaimed: after the destructor's
`disconnectSlots` loop no attached slot remains attached, and every slot
that was attached is disconnected. -/
theorem trackable_dtor_disconnects_attached :
    ∀ (t : Nat) (w : TrkWorld),
      (trackableDtor t w).tslots t = []
      ∧ ∀ s ∈ w.tslots t, ((trackableDtor t w).slots s).connected = false := by
  intro t w
  exact disconnectSlots_spec ((w.tslots t).length) t w (le_refl _)

/-- Witness for claim C9 at a concrete world: destroying trackable 1 of
`wTrk` (slots 1 and 2 attached) empties its slot list and leaves both
slots disconnected. -/
theorem trackable_dtor_disconnects_attached_witness :
    (2 ∈ wTrk.tslots 1)
    ∧ (trackableDtor 1 wTrk).tslots 1 = []
    ∧ ((trackableDtor 1 wTrk).slots 2).connected = false
    ∧ ((trackableDtor 1 wTrk).slots 1).connected = false := by
  have h := trackable_dtor_disconnects_attached 1 wTrk
  exact ⟨by decide, h.1, h.2 2 (by decide), h.2 1 (by decide)⟩
